import Mathlib

/-!
A verification development for the core of the lopper system-device-tree
transformation engine (`lopper.py`).

The engine's tree model lives in the external `lopper_tree` module; its
operations (`nodes`, `lnodes`, `subnodes`, lookup by path, property access,
delete, rename) are modelled here from the specification (§4.1/§4.2 of the
spec).  Everything in `lopper.py` itself (the lop interpreter, the runqueue,
the selector loop, the modify handlers, assist dispatch) is translated
directly from that source.
-/

namespace Lop

/-- A device-tree property value element: lopper property values are lists
whose elements are (for the fragment the claims exercise) integers or
strings. -/
inductive PV where
  | num : Int → PV
  | str : String → PV
deriving DecidableEq, Repr

/-- Modelled from the spec: a tree node (`LopperNode` of the external
`lopper_tree` module).  A node carries an absolute slash-separated path, an
optional symbolic label (empty string when absent), an optional phandle
(0 when absent), and an ordered mapping of property names to values. -/
structure LNode where
  path : String
  label : String := ""
  phandle : Nat := 0
  props : List (String × List PV) := []
deriving DecidableEq, Repr

/-- A tree is its node list in document (pre-)order; the root is `/`. -/
abbrev LTree := List LNode

/-! Structural string primitives (Python `str.split`, `str.replace`,
prefix tests, `int(...)`) so that every definition evaluates by kernel
reduction. -/

/-- Python `str.split(sep)` for a one-character separator. -/
def chSplit (sep : Char) : List Char → List (List Char)
  | [] => [[]]
  | c :: t =>
    match chSplit sep t with
    | [] => [[c]]
    | h :: rs => if c == sep then [] :: h :: rs else (c :: h) :: rs

/-- `str.split(sep)` on strings. -/
def strSplit (sep : Char) (s : String) : List String :=
  (chSplit sep s.data).map String.mk

/-- Removal of every occurrence of one character (`str.replace(c, "")`,
`re.sub(c, "", ...)`). -/
def strRemoveChar (c : Char) (s : String) : String :=
  String.mk (s.data.filter (fun d => d ≠ c))

/-- `c in s` for a single character. -/
def strHasChar (c : Char) (s : String) : Bool := s.data.contains c

/-- `s.startswith(p)`. -/
def strStartsWith (p s : String) : Bool := p.data.isPrefixOf s.data

/-- `s[1:]`. -/
def strDropOne (s : String) : String := String.mk s.data.tail

/-- The decimal digits of `l` as a number, `none` when `l` is empty or has
a non-digit. -/
def chDigits? (l : List Char) : Option Nat :=
  match l with
  | [] => none
  | _ =>
    l.foldl
      (fun acc c =>
        match acc with
        | none => none
        | some n => if c.isDigit then some (n * 10 + (c.toNat - 48)) else none)
      (some 0)

/-- `int(s)` for optionally-signed decimal text, `none` when it raises. -/
def strToInt? (s : String) : Option Int :=
  match s.data with
  | '-' :: rest => (chDigits? rest).map (fun n => -(n : Int))
  | l => (chDigits? l).map (fun n => (n : Int))

/-- Property lookup on a node (`node[prop]`); `none` models the KeyError
raised for a missing property. -/
def lookupProp (n : LNode) (p : String) : Option (List PV) :=
  (n.props.find? (fun q => q.1 == p)).map (·.2)

/-- Modelled from the spec: lookup-by-path (`tree[path]`), `none` = not found. -/
def lookupPath (t : LTree) (p : String) : Option LNode :=
  t.find? (fun n => n.path == p)

/-- Full property read through the tree: value of `prop` on the node at
`path`, when both exist. -/
def getProp (t : LTree) (path prop : String) : Option (List PV) :=
  (lookupPath t path).bind (fun n => lookupProp n prop)

/-- Matcher for the regex fragment lopper's lop expressions use: literal
characters, `.` (any one character) and `.*`; structurally recursive on a
fuel that bounds the joint length, so it evaluates by kernel reduction.
Every recursive call shrinks `p.length + s.length`, so fuel
`p.length + s.length + 1` (as `rxMatch` passes) is never exhausted. -/
def rxMatchF : Nat → List Char → List Char → Bool
  | 0, _, _ => false
  | _ + 1, [], s => s.isEmpty
  | f + 1, '.' :: '*' :: ps, [] => rxMatchF f ps []
  | f + 1, '.' :: '*' :: ps, c :: s =>
      rxMatchF f ps (c :: s) || rxMatchF f ('.' :: '*' :: ps) s
  | _ + 1, _ :: _, [] => false
  | f + 1, p :: ps, c :: s => (p == '.' || p == c) && rxMatchF f ps s

/-- `rxMatch p s` holds when `s` as a whole matches the pattern `p`. -/
def rxMatch (p s : List Char) : Bool :=
  rxMatchF (p.length + s.length + 1) p s

/-- Modelled from the spec (§4.1): `nodes(regex)` returns all nodes whose
absolute path matches the regex; a regex containing no `/` is implicitly
prefixed with `.*`. -/
def treeNodes (t : LTree) (regex : String) : List LNode :=
  let r := if strHasChar '/' regex then regex else ".*" ++ regex
  t.filter (fun n => rxMatch r.data n.path.data)

/-- Modelled from the spec (§4.1): `lnodes(regex)` returns all nodes whose
label matches the regex. -/
def treeLnodes (t : LTree) (regex : String) : List LNode :=
  t.filter (fun n => n.label ≠ "" && rxMatch regex.data n.label.data)

/-- `q` lies strictly below path `p` (descendant by path).  The root `/`
already ends in the separator, so its descendants are every other path
beginning with `/`; for any other `p` the separator is appended before the
prefix test, so `/amba` is not an ancestor of `/ambassador`. -/
def isUnderPath (p q : String) : Bool :=
  q != p && strStartsWith (if p = "/" then "/" else p ++ "/") q

/-- Modelled from the spec (§4.1): `subnodes(n)` is `n` followed by all its
transitive descendants in document order. -/
def subnodesOf (t : LTree) (p : String) : List LNode :=
  t.filter (fun n => n.path == p || isUnderPath p n.path)

/-- `Lopper.property_convert`: best-effort conversion of a textual lop value
to a typed value (an integer when the text parses as one, the string itself
otherwise); results are logically lists. -/
def property_convert (s : String) : List PV :=
  match strToInt? s with
  | some n => [PV.num n]
  | none => [PV.str s]

/-- Modelled from the spec (§4.2): `LopperProp.compare` — comparison uses
the value; for lists, equality is set-membership of the literal value. -/
def propCompare (test actual : List PV) : Bool :=
  match test with
  | [v] => actual.contains v
  | _ => test == actual

/-! ## The `modify` lop: property-delete branch (lopper.py:1694-1732)

For a `modify` value `PATH:PROP:VAL` with `PROP` nonempty and `VAL` empty,
the interpreter computes `nodes = tree.subnodes(tree[PATH])` (the selection
when `PATH` is empty, `[]` when the lookup raises) and calls
`n.delete(PROP)` on each, ignoring nodes without the property. -/

/-- The target node set of a `modify` lop (by path): `tree.subnodes(tree[PATH])`,
or the current selection when `PATH` is empty (lopper.py:1696-1708). -/
def modifyTargets (t : LTree) (path : String) (selectedPaths : List String) :
    List String :=
  if path = "" then selectedPaths
  else
    match lookupPath t path with
    | some n => (subnodesOf t n.path).map (·.path)
    | none => []

/-- Modelled from the spec: `LopperNode.delete(prop)` removes the named
property from the node's ordered property mapping. -/
def delProp (n : LNode) (prop : String) : LNode :=
  { n with props := n.props.filter (fun q => q.1 ≠ prop) }

/-- `modify` with nonempty `PROP` and empty `VAL` (lopper.py:1710-1732):
delete the named property on each target node. -/
def propertyRemoveOp (t : LTree) (path prop : String)
    (selectedPaths : List String) : LTree :=
  let tgts := modifyTargets t path selectedPaths
  t.map (fun n => if n.path ∈ tgts then delProp n prop else n)

/-! ## The `modify` lop: property-assign branch (lopper.py:1733-1800) -/

/-- Modelled from the spec: ordered-mapping property assignment
(`n[prop] = v`): replace the value in place when the name is present,
append the pair otherwise. -/
def setProp (n : LNode) (prop : String) (v : List PV) : LNode :=
  { n with props :=
      if (n.props.find? (fun q => q.1 == prop)).isSome then
        n.props.map (fun q => if q.1 = prop then (q.1, v) else q)
      else n.props ++ [(prop, v)] }

/-- Candidate nodes for a `&NAME` reference (lopper.py:1762-1770): path
regex over the main tree, then main-tree labels, then path regex over the
lop tree, then lop-tree labels; the first stage with a nonempty result
wins. -/
def phandleCandidates (tree lopsTree : LTree) (name : String) : List LNode :=
  let a := treeNodes tree name
  if a ≠ [] then a
  else
    let b := treeLnodes tree name
    if b ≠ [] then b
    else
      let c := treeNodes lopsTree name
      if c ≠ [] then c
      else treeLnodes lopsTree name

/-- The replacement value of a `modify` assignment (lopper.py:1753-1798,
including the final list-wrapping of scalars): a `VAL` containing `&` is a
reference `NAME[#FIELD]` (`re.sub` strips every `&`); with `#FIELD` the
referenced node's property value is substituted (its phandle when the
property is missing), otherwise its phandle; 0 when nothing resolves.  A
`VAL` without `&` goes through `property_convert`. -/
def resolveModifyVal (tree lopsTree : LTree) (modify_val : String) : List PV :=
  if strHasChar '&' modify_val then
    let parts := strSplit '#' modify_val
    let node := parts.headD ""
    let node_property := parts.get? 1
    let phandle_node_name := strRemoveChar '&' node
    let pfnodes := phandleCandidates tree lopsTree phandle_node_name
    match node_property with
    | some p =>
      match pfnodes with
      | [] => [PV.num 0]
      | n :: _ =>
        match lookupProp n p with
        | some v => v
        | none => [PV.num (n.phandle : Int)]
    | none =>
      match pfnodes with
      | [] => [PV.num 0]
      | n :: _ => [PV.num (n.phandle : Int)]
  else property_convert modify_val

/-- `modify` with nonempty `PROP` and nonempty `VAL` (lopper.py:1733-1800):
the target nodes are re-fetched as `tree.nodes(PATH)` (the selection when
`PATH` is empty) and each gets `PROP` assigned the resolved value. -/
def modifyAssignOp (tree lopsTree : LTree) (path prop val : String)
    (selectedPaths : List String) : LTree :=
  let nodes := if path ≠ "" then (treeNodes tree path).map (·.path)
               else selectedPaths
  let v := resolveModifyVal tree lopsTree val
  tree.map (fun n => if n.path ∈ nodes then setProp n prop v else n)

/-! ## The `modify` lop: node operation (lopper.py:1801-1890) -/

/-- Python `pathlib.PurePosixPath.name` for the absolute paths lopper
builds: the final path component (empty for `/`). -/
def pathName (p : String) : String :=
  ((strSplit '/' p).filter (fun s => s ≠ "")).getLastD ""

/-- Python `pathlib.PurePosixPath.parent` for absolute paths. -/
def pathParent (p : String) : String :=
  let comps := (strSplit '/' p).filter (fun s => s ≠ "")
  match comps.dropLast with
  | [] => "/"
  | cs => cs.foldl (fun acc c => acc ++ "/" ++ c) ""

/-- Modelled from the spec (§4.1 deep-copy + add): copy the subtree rooted
at `src` so that its root lands at path `dst`, keeping properties, labels
and phandles. -/
def copySubtreeTo (t : LTree) (src dst : String) : List LNode :=
  (subnodesOf t src).map
    (fun n => { n with path := dst ++ String.mk (n.path.data.drop src.data.length) })

/-- Modelled from the spec (§4.1 delete): remove the node at `p` and all
its descendants. -/
def deleteSubtree (t : LTree) (p : String) : LTree :=
  t.filter (fun n => !(n.path == p || isUnderPath p n.path))

/-- Modelled from the spec: `node.name = newName` followed by `sync`: the
node at `p` gets the new name, and its path and its descendants' paths are
re-derived from it. -/
def renameSubtree (t : LTree) (p newName : String) : LTree :=
  let newPath := (if pathParent p = "/" then "" else pathParent p) ++ "/" ++ newName
  t.map (fun n =>
    if n.path = p then { n with path := newPath }
    else if isUnderPath p n.path then
      { n with path := newPath ++ String.mk (n.path.data.drop p.data.length) }
    else n)

/-- Result of the node-operation branch; `err` stands for the `sys.exit(1)`
taken when no target node is found. -/
inductive NodeOpResult where
  | ok (t : LTree)
  | err
deriving DecidableEq, Repr

/-- `modify` with empty `PROP` (lopper.py:1801-1890): a node operation on
the FIRST target node.  Empty `VAL` deletes it.  Nonempty `VAL`: when the
destination parent differs, the node is deep-copied to `VAL` and the
original deleted (the copied node's path is the raw `VAL`); when the
destination leaf name differs, any node at the destination path is deleted
and the target is renamed to `VAL` with every `/` removed
(`modify_val.replace('/','')`, lopper.py:1847) — when both branches fire
the rename mutates the already-detached original and leaves the tree as the
second branch's delete left it. -/
def modifyNodeOp (tree : LTree) (path val : String)
    (selectedPaths : List String) : NodeOpResult :=
  let nodes := if path = "" then selectedPaths
               else
                 match lookupPath tree path with
                 | some n => (subnodesOf tree n.path).map (·.path)
                 | none => []
  match nodes.head? with
  | none => .err
  | some nodePath =>
    if val ≠ "" then
      let src := nodePath
      let dest := if strStartsWith "/" val then val else "/" ++ val
      let moved := pathParent src ≠ pathParent dest
      let t1 := if moved then deleteSubtree (tree ++ copySubtreeTo tree src val) src
                else tree
      if pathName src ≠ pathName dest then
        let newName := strRemoveChar '/' val
        let t2 := match lookupPath t1 dest with
                  | some old => deleteSubtree t1 old.path
                  | none => t1
        .ok (if moved then t2 else renameSubtree t2 src newName)
      else .ok t1
    else .ok (deleteSubtree tree nodePath)

/-! ## The `select` lop (lopper.py:834-987) -/

/-- One `select` expression string (lopper.py:869-874): `a:b:c` splits into
(PATH_REGEX, PROPNAME, PROPVAL); any other shape (one, two, or four and
more fields) raises in the three-way unpacking and falls to the except
branch, which treats the whole string as the PATH_REGEX. -/
def parseSelect (s : String) : String × String × String :=
  match strSplit ':' s with
  | [a, b, c] => (a, b, c)
  | _ => (s, "", "")

/-- The candidate walk for a `PROPNAME:PROPVAL` predicate
(lopper.py:911-940): a candidate whose property compares equal (after the
optional inversion) is appended to the selection unless already there; a
failing or property-less candidate is removed from the selection only in
AND mode (`andMode` = the PATH_REGEX was empty). -/
def selPropValLoop (prop : String) (testv : List PV) (invert andMode : Bool) :
    List LNode → List LNode → List LNode
  | acc, [] => acc
  | acc, sl :: rest =>
    let acc' :=
      match lookupProp sl prop with
      | some v =>
        let eq := propCompare testv v
        let eq := if invert then !eq else eq
        if eq then (if sl ∈ acc then acc else acc ++ [sl])
        else (if andMode then acc.erase sl else acc)
      | none => if andMode then acc.erase sl else acc
    selPropValLoop prop testv invert andMode acc' rest

/-- The candidate walk for a presence/absence predicate (`PROPNAME` with
empty PROPVAL, lopper.py:942-975). -/
def selPropExistsLoop (prop : String) (existsTest : Bool) :
    List LNode → List LNode → List LNode
  | acc, [] => acc
  | acc, sl :: rest =>
    let found := (lookupProp sl prop).isSome
    let acc' :=
      if existsTest then
        if found then (if sl ∈ acc then acc else acc ++ [sl]) else acc.erase sl
      else
        if found then acc.erase sl else (if sl ∈ acc then acc else acc ++ [sl])
    selPropExistsLoop prop existsTest acc' rest

/-- One selection expression (lopper.py:866-978), updating the running pair
`(selected_nodes, selected_nodes_possible)`.  `treeSel` is the tree's
current selection, read when the PATH_REGEX is empty and nothing has been
selected yet.  A nonempty PATH_REGEX appends its matches to the candidate
pool; the `!` handling mirrors lopper.py:894-898 (inversion when `!`
occurs anywhere in PROPVAL, stripping only a leading `!`). -/
def selectStep (tree : LTree) (treeSel : List LNode)
    (st : List LNode × List LNode) (s : String) : List LNode × List LNode :=
  let selected := st.1
  let possible := st.2
  let ps := parseSelect s
  let node_regex := ps.1
  let prop := ps.2.1
  let prop_val := ps.2.2
  let possible :=
    if node_regex ≠ "" then
      if possible ≠ [] then possible ++ treeNodes tree node_regex
      else treeNodes tree node_regex
    else
      if selected ≠ [] then selected else treeSel
  if prop ≠ "" ∧ prop_val ≠ "" then
    let invert := strHasChar '!' prop_val
    let pv := if strStartsWith "!" prop_val then strDropOne prop_val else prop_val
    let testv := property_convert pv
    (selPropValLoop prop testv invert (node_regex = "") selected possible, possible)
  else if prop ≠ "" ∧ prop_val = "" then
    let existsTest := !(strHasChar '!' prop)
    let propName := if strStartsWith "!" prop then strDropOne prop else prop
    (selPropExistsLoop propName existsTest selected possible, possible)
  else if prop = "" ∧ prop_val = "" then
    (possible, possible)
  else (selected, possible)

/-- The whole `select` lop body (lopper.py:856-987) over the list of
`select_N` property value-lists, in property order: a value `[""]` clears
the tree's selection immediately; every other value folds `selectStep`
over its strings; at the end the tree's selection becomes the accumulated
`selected_nodes`. -/
def selectExec (tree : LTree) (prevSel : List LNode)
    (sels : List (List String)) : List LNode :=
  let st := sels.foldl
    (fun (st : List LNode × List LNode × List LNode) v =>
      let treeSel := st.1
      let selected := st.2.1
      let possible := st.2.2
      if v = [""] then (([] : List LNode), selected, possible)
      else
        let r := v.foldl (fun q s => selectStep tree treeSel q s) (selected, possible)
        (treeSel, r.1, r.2))
    (prevSel, ([] : List LNode), ([] : List LNode))
  st.2.1

/-- A second definition following the claim's own words (not the source),
for comparison: "the selection set equals the nodes matched by the nonempty
PATH_REGEX parts of the select_N values, filtered by the property
predicates (union over the select_N candidates); an empty PATH_REGEX
applies its predicate as an AND filter over the previously selected
nodes". -/
def selectSpecSelection (tree : LTree) (sels : List (List String)) :
    List LNode :=
  let pred := fun (prop prop_val : String) (n : LNode) =>
    if prop = "" then true
    else
      let invert := strStartsWith "!" prop_val
      let pv := if invert then strDropOne prop_val else prop_val
      match lookupProp n prop with
      | some v =>
        if prop_val = "" then true
        else
          let eq := propCompare (property_convert pv) v
          if invert then !eq else eq
      | none => false
  (sels.flatten).foldl
    (fun acc s =>
      let ps := parseSelect s
      if ps.1 ≠ "" then
        acc ++ (treeNodes tree ps.1).filter
          (fun n => pred ps.2.1 ps.2.2 n && !(acc.contains n))
      else acc.filter (fun n => pred ps.2.1 ps.2.2 n))
    ([] : List LNode)

/-! ## The `conditional` lop's child chains (lopper.py:1537-1585) -/

/-- A child lop of a conditional, as the dispatcher sees it: its node name
and the outcome of `self.exec_lop` on it for a given `start_node` (False
also stands for an exception caught at lopper.py:1551-1553). -/
structure CondChild where
  name : String
  run : String → Bool

/-- One pass over the conditional lop's subnodes for one match
(lopper.py:1543-1559 for `true`, 1568-1583 for `false`): the children whose
names start with `pre` execute in document order, each with `start_node`
bound to the match `m`; the loop breaks after the first one that returns
False.  Returns the document indices of the children executed. -/
def chainRun (pre : String) (m : String) : Nat → List CondChild → List Nat
  | _, [] => []
  | i, n :: rest =>
    if strStartsWith pre n.name then
      if n.run m = false then [i]
      else i :: chainRun pre m (i + 1) rest
    else chainRun pre m (i + 1) rest

/-- The conditional lop executes the `true*` chain for every true match and
the `false*` chain for every false match (lopper.py:1539-1585). -/
def condDispatch (subs : List CondChild)
    (tgtMatches tgtFalseMatches : List String) :
    List (String × List Nat) × List (String × List Nat) :=
  (tgtMatches.map (fun m => (m, chainRun "true" m 0 subs)),
   tgtFalseMatches.map (fun m => (m, chainRun "false" m 0 subs)))

/-! ## The top-level runqueue walk (lopper.py:1922-1998) -/

/-- A lop-tree node as the top-level walk sees it: its path, its type
strings (the `compatible` values), and whether it carries a `noexec`
property. -/
structure WalkNode where
  path : String
  types : List String
  noexec : Bool := false
deriving DecidableEq, Repr

/-- `lop_test` (lopper.py:1969): `re.compile('system-device-tree-v1,lop.*')`
used with `match` anchors at the start, so it is a prefix test. -/
def isLopType (s : String) : Bool := strStartsWith "system-device-tree-v1,lop" s

def isLopNode (f : WalkNode) : Bool := f.types.any isLopType

/-- `pat` occurs as a contiguous run inside `s`. -/
def infixOf (pat : List Char) : List Char → Bool
  | [] => pat.isEmpty
  | c :: t => pat.isPrefixOf (c :: t) || infixOf pat t

/-- `lop_cond_test` (lopper.py:1970): `re.compile('.*,lop,conditional.*$')`
used with `match`: a substring test. -/
def isCondType (s : String) : Bool := infixOf ",lop,conditional".data s.data

def isCondNode (f : WalkNode) : Bool := f.types.any isCondType

/-- `f.subnodes()` with `f` itself removed (lopper.py:1980-1983), by path. -/
def walkDescendants (tree : List WalkNode) (p : String) : List String :=
  (tree.map (·.path)).filter (fun q => isUnderPath p q)

/-- The per-file walk of `perform_lops` (lopper.py:1971-1998): the tree's
nodes are visited in document order; non-lop nodes are passed over; a
conditional lop REPLACES the current skip list with its own proper
descendants; a lop with `noexec`, or one on the current skip list, is not
executed.  Returns the document indices of the nodes handed to
`exec_lop`. -/
def runqueueWalkAux (tree : List WalkNode) :
    List WalkNode → Nat → List String → List Nat
  | [], _, _ => []
  | f :: rest, i, skip =>
    if !(isLopNode f) then runqueueWalkAux tree rest (i + 1) skip
    else
      let skip' := if isCondNode f then walkDescendants tree f.path else skip
      if f.noexec || skip'.contains f.path then
        runqueueWalkAux tree rest (i + 1) skip'
      else i :: runqueueWalkAux tree rest (i + 1) skip'

def runqueueWalk (tree : List WalkNode) : List Nat :=
  runqueueWalkAux tree tree 0 []

/-- A loaded lop file: the root's `priority` property value (when present)
and the file's tree for the walk. -/
structure LopFileM where
  priorityProp : Option (List Int) := none
  tree : List WalkNode := []

/-- `lops_file_priority` (lopper.py:1954-1958): the first element of the
root's `priority` value; any failure (missing property, empty value) gives
the default 5. -/
def lopFilePriority (x : LopFileM) : Int :=
  match x.priorityProp with
  | some (v :: _) => v
  | _ => 5

/-- The runqueue (lopper.py:1922-1960): files are bucketed by priority into
slots 1..9 (kept in their original order inside a slot) and the slots are
visited in ascending order (lopper.py:1966-1967).  Represented as the list
of file indices in execution order. -/
def lopsRunqueue (files : List LopFileM) : List Nat :=
  (List.range' 1 9).flatMap (fun p =>
    (List.range files.length).filter (fun i =>
      lopFilePriority (files.getD i {}) = (p : Int)))

/-- `perform_lops` (lopper.py:1892-1998): visit the runqueue's files in
order and walk each file's tree; an execution is the pair (file index,
document index inside the file). -/
def perform_lops (files : List LopFileM) : List (Nat × Nat) :=
  (lopsRunqueue files).flatMap (fun i =>
    (runqueueWalk (files.getD i {}).tree).map (fun k => (i, k)))

/-! ## Assist dispatch (lopper.py:674-738) and output writing
(lopper.py:470-495) -/

/-- A registered assist (`LopperAssist`): whether its module is loaded, its
registration properties (`id`, `mask`) and its module's `is_compat` probe,
returning a callable (numbered) or `none` for a False return. -/
structure AssistM where
  module : Bool
  props : List (String × String)
  is_compat : String → Option Nat

/-- `a.properties[k]` with the except-branch default `""`. -/
def assistProp (a : AssistM) (k : String) : String :=
  match a.props.find? (fun q => q.1 == k) with
  | some q => q.2
  | none => ""

/-- A Python computation that may raise NameError. -/
inductive PyRes (α : Type) where
  | nameError
  | ok (v : α)
deriving DecidableEq, Repr

/-- The loop state of `find_compatible_assist`: `cb_id` (overwritten once a
registered id fills an empty argument), `cb_f` (`none` = still unbound) and
the accumulated callables. -/
structure FCAState where
  cb_id : String
  cb_f : Option (Option Nat)
  acc : List Nat

/-- One iteration of the loop in `find_compatible_assist`
(lopper.py:701-734): assists without a module only print a warning; the
mask gate runs before `is_compat`, and when it rejects, `cb_f` keeps its
previous value — reading it unbound raises NameError
(lopper.py:725-728). -/
def fcaStep (mask : String) (st : FCAState) (a : AssistM) : PyRes FCAState :=
  if a.module then
    let cb_id := if st.cb_id = "" then assistProp a "id" else st.cb_id
    let assist_mask := assistProp a "mask"
    let mask_ok : Bool :=
      if mask = "" ∨ assist_mask = "" then true else mask = assist_mask
    let cb_f := if mask_ok then some (a.is_compat cb_id) else st.cb_f
    match cb_f with
    | none => .nameError
    | some f =>
      .ok ⟨cb_id, some f, st.acc ++ (match f with | some c => [c] | none => [])⟩
  else .ok st

/-- The loop of `find_compatible_assist` over the registered assists; a
NameError aborts the run. -/
def fcaRun (mask : String) : FCAState → List AssistM → PyRes FCAState
  | st, [] => .ok st
  | st, a :: rest =>
    match fcaStep mask st a with
    | .nameError => .nameError
    | .ok st' => fcaRun mask st' rest

/-- `find_compatible_assist` (lopper.py:674-738). -/
def find_compatible_assist (assists : List AssistM) (cb_id mask : String) :
    PyRes (List Nat) :=
  if assists.isEmpty then .ok []
  else
    match fcaRun mask ⟨cb_id, none, []⟩ assists with
    | .nameError => .nameError
    | .ok st => .ok st.acc

/-- `re.search(".LIT", name)` for the unescaped patterns `.dtb`, `.dts`,
`.yaml` of `LopperSDT.write` (lopper.py:441-462): the `.` matches any one
character, so the test is "LIT occurs at some position ≥ 1". -/
def reSearchDotLit (lit s : String) : Bool :=
  infixOf lit.data s.data.tail

/-- `os.path.splitext(...)[1]`: the extension of the final path component
including its dot (leading dots of the component do not open an
extension). -/
def splitextExt (s : String) : String :=
  let base := (strSplit '/' s).getLastD ""
  let lead := (base.data.takeWhile (fun c => c = '.')).length
  let rest := base.data.drop lead
  if rest.contains '.' then
    "." ++ ((chSplit '.' rest).map String.mk).getLastD ""
  else ""

/-- What `LopperSDT.write` does with an output file name, as routing plus
the assist calls made (lopper.py:441-495): each callable collected by
`find_compatible_assist(0, "", out_ext)` is invoked with the output file
name and the verbosity in its options. -/
inductive WriteAction where
  | dtbOut
  | dtsOut
  | yamlOut
  | assistOut (calls : List (Nat × String × Nat))
  | skipOut
  | errOut
deriving DecidableEq, Repr

/-- The routing of `LopperSDT.write` (lopper.py:441-495). -/
def writeDispatch (assists : List AssistM) (verbose : Nat)
    (output_filename : String) : WriteAction :=
  if reSearchDotLit "dtb" output_filename then .dtbOut
  else if reSearchDotLit "dts" output_filename then .dtsOut
  else if reSearchDotLit "yaml" output_filename then .yamlOut
  else
    let out_ext := splitextExt output_filename
    match find_compatible_assist assists "" out_ext with
    | .nameError => .errOut
    | .ok [] => .skipOut
    | .ok cbs => .assistOut (cbs.map (fun c => (c, output_filename, verbose)))

/-! ## Concrete inputs used to instantiate the theorems -/

/-- A tree with `/chosen` carrying `bootargs` and a second property, and a
sibling node that also carries a `bootargs` of its own. -/
def exC7tree : LTree :=
  [⟨"/", "", 0, []⟩,
   ⟨"/chosen", "", 0, [("bootargs", [PV.str "console=ttyS0"]),
                       ("stdout-path", [PV.str "serial0"])]⟩,
   ⟨"/etc", "", 0, [("bootargs", [PV.str "y"])]⟩]

/-- The `/chosen` node of `exC7tree`. -/
def exC7chosen : LNode :=
  ⟨"/chosen", "", 0, [("bootargs", [PV.str "console=ttyS0"]),
                      ("stdout-path", [PV.str "serial0"])]⟩

/-- The spec's rename scenario input: `/amba/uart@0` with one property. -/
def exC6tree : LTree :=
  [⟨"/", "", 0, []⟩, ⟨"/amba", "", 0, []⟩,
   ⟨"/amba/uart@0", "", 0, [("compatible", [PV.str "ns16550"])]⟩]

/-- A root-level rename input with the destination path occupied. -/
def exC6roottree : LTree :=
  [⟨"/", "", 0, []⟩, ⟨"/uart", "", 0, [("k", [PV.num 1])]⟩,
   ⟨"/serial0", "", 0, [("z", [PV.num 9])]⟩]

/-- A lop file whose conditional lop has a conditional nested among its
children, followed by a further (modify) child. -/
def exC8tree : List WalkNode :=
  [⟨"/", ["system-device-tree-v1"], false⟩,
   ⟨"/lops", [], false⟩,
   ⟨"/lops/lop_0", ["system-device-tree-v1,lop,conditional-v1"], false⟩,
   ⟨"/lops/lop_0/true_nested", ["system-device-tree-v1,lop,conditional-v1"], false⟩,
   ⟨"/lops/lop_0/true_mod", ["system-device-tree-v1,lop,modify"], false⟩]

/-- A lop file with no nested conditional: one conditional with a child,
a `noexec` lop, and a plain lop. -/
def exC8sane : List WalkNode :=
  [⟨"/", ["system-device-tree-v1"], false⟩,
   ⟨"/lops/lop_0", ["system-device-tree-v1,lop,conditional-v1"], false⟩,
   ⟨"/lops/lop_0/true_mod", ["system-device-tree-v1,lop,modify"], false⟩,
   ⟨"/lops/lop_1", ["system-device-tree-v1,lop,modify"], true⟩,
   ⟨"/lops/lop_2", ["system-device-tree-v1,lop,modify"], false⟩]

/-- The spec's phandle-substitution scenario: a node labelled `cpu0` with
phandle 7, and `/chosen` with `cpu = ""`. -/
def exC3tree : LTree :=
  [⟨"/", "", 0, []⟩, ⟨"/cpus", "", 0, []⟩, ⟨"/cpus/cpu@0", "cpu0", 7, []⟩,
   ⟨"/chosen", "", 0, [("cpu", [PV.str ""])]⟩]

/-- A tree where `cpu0` is both the label of `/a` (phandle 7) and the leaf
name of the unlabelled `/b/cpu0` (phandle 9). -/
def exC3btree : LTree :=
  [⟨"/", "", 0, []⟩, ⟨"/a", "cpu0", 7, []⟩, ⟨"/b", "", 0, []⟩,
   ⟨"/b/cpu0", "", 9, []⟩, ⟨"/chosen", "", 0, [("cpu", [PV.str ""])]⟩]

/-- The spec's selector scenario: `/a`, `/a/b`, `/a/c` with `foo = 1` only
on `/a/b`. -/
def exC4tree1 : LTree :=
  [⟨"/", "", 0, []⟩, ⟨"/a", "", 0, []⟩,
   ⟨"/a/b", "", 0, [("foo", [PV.num 1])]⟩, ⟨"/a/c", "", 0, []⟩]

/-- Two subtrees for the union scenario. -/
def exC4tree2 : LTree :=
  [⟨"/", "", 0, []⟩, ⟨"/a", "", 0, []⟩, ⟨"/a/x", "", 0, []⟩,
   ⟨"/b", "", 0, []⟩, ⟨"/b/y", "", 0, []⟩]

/-- `/a/x` and `/b/y` both carry `bar = 2` and neither carries `foo`. -/
def exC4tree3 : LTree :=
  [⟨"/", "", 0, []⟩, ⟨"/a", "", 0, []⟩,
   ⟨"/a/x", "", 0, [("bar", [PV.num 2])]⟩,
   ⟨"/b", "", 0, []⟩, ⟨"/b/y", "", 0, [("bar", [PV.num 2])]⟩]

/-- `/a/x` carries `baz = "a!b"`: a property value with a non-leading `!`. -/
def exC5tree : LTree :=
  [⟨"/", "", 0, []⟩, ⟨"/a", "", 0, []⟩,
   ⟨"/a/x", "", 0, [("baz", [PV.str "a!b"])]⟩]

/-- An assist registered for mask `.cdo` whose probe yields callable 1. -/
def exAssistCdo1 : AssistM := ⟨true, [("mask", ".cdo")], fun _ => some 1⟩

/-- A second assist registered for mask `.cdo`, callable 2. -/
def exAssistCdo2 : AssistM := ⟨true, [("mask", ".cdo")], fun _ => some 2⟩

/-- An assist registered for mask `.xyz`, callable 3. -/
def exAssistXyz : AssistM := ⟨true, [("mask", ".xyz")], fun _ => some 3⟩

/-- Two lop files for the priority scenario: file 0 has priority 3 and one
lop; file 1 has priority 1 and two lops. -/
def exC1files : List LopFileM :=
  [⟨some [3], [⟨"/lops/a0", ["system-device-tree-v1,lop,add"], false⟩]⟩,
   ⟨some [1], [⟨"/lops/b0", ["system-device-tree-v1,lop,modify"], false⟩,
               ⟨"/lops/b1", ["system-device-tree-v1,lop,modify"], false⟩]⟩]

end Lop

namespace Lop

theorem find?_key_filter_ne (l : List (String × List PV)) (prop q : String)
    (h : q ≠ prop) :
    (l.filter (fun r => r.1 ≠ prop)).find? (fun r => r.1 == q) =
      l.find? (fun r => r.1 == q) := by
  induction l with
  | nil => rfl
  | cons r rs ih =>
    simp only [List.filter_cons]
    by_cases hbp : r.1 = prop
    · have hd : (decide (r.1 ≠ prop)) = false := by simp [hbp]
      rw [hd]
      simp only [Bool.false_eq_true, if_false]
      have h2 : (r.1 == q) = false := by
        refine beq_eq_false_iff_ne.mpr ?_
        intro hq
        exact h (hq.symm.trans hbp)
      rw [List.find?_cons_of_neg _ (by simp [h2]), ih]
    · have hd : (decide (r.1 ≠ prop)) = true := by simp [hbp]
      rw [hd]
      simp only [if_true]
      by_cases hcq : r.1 = q
      · have h2 : (r.1 == q) = true := by simp [hcq]
        simp only [List.find?_cons, h2]
      · have h2 : (r.1 == q) = false := by simp [hcq]
        rw [List.find?_cons_of_neg _ (by simp [h2]),
          List.find?_cons_of_neg _ (by simp [h2]), ih]

theorem lookupProp_delProp_ne (n : LNode) (prop q : String) (h : q ≠ prop) :
    lookupProp (delProp n prop) q = lookupProp n q := by
  unfold lookupProp delProp
  rw [find?_key_filter_ne _ _ _ h]

theorem lookupProp_delProp_self (n : LNode) (prop : String) :
    lookupProp (delProp n prop) prop = none := by
  unfold lookupProp delProp
  have hnone : (n.props.filter (fun r => r.1 ≠ prop)).find?
      (fun r => r.1 == prop) = none := by
    apply List.find?_eq_none.mpr
    intro r hr
    have := (List.mem_filter.mp hr).2
    simpa using this
  simp only [hnone, Option.map_none']

/-- C7: for every `modify` lop with nonempty PROP and empty VAL, the named
property is deleted on each target node and nothing else in the tree
changes: the node paths (hence all child relationships) are unchanged, a
targeted node keeps its label, phandle and every other property, and an
untargeted node is kept untouched. -/
theorem c7_modify_prop_delete_frame (t : LTree) (path prop : String)
    (sel : List String) (n : LNode) (hn : n ∈ t) :
    (propertyRemoveOp t path prop sel).map LNode.path = t.map LNode.path ∧
    (n.path ∈ modifyTargets t path sel →
      delProp n prop ∈ propertyRemoveOp t path prop sel ∧
      lookupProp (delProp n prop) prop = none ∧
      (delProp n prop).path = n.path ∧ (delProp n prop).label = n.label ∧
      (delProp n prop).phandle = n.phandle ∧
      ∀ q, q ≠ prop → lookupProp (delProp n prop) q = lookupProp n q) ∧
    (n.path ∉ modifyTargets t path sel →
      n ∈ propertyRemoveOp t path prop sel) := by
  refine ⟨?_, ?_, ?_⟩
  · unfold propertyRemoveOp
    rw [List.map_map]
    apply List.map_congr_left
    intro a _
    by_cases h : a.path ∈ modifyTargets t path sel <;> simp [h, delProp]
  · intro htgt
    refine ⟨?_, lookupProp_delProp_self n prop, rfl, rfl, rfl,
      fun q hq => lookupProp_delProp_ne n prop q hq⟩
    unfold propertyRemoveOp
    have := List.mem_map_of_mem
      (fun m => if m.path ∈ modifyTargets t path sel then delProp m prop else m) hn
    simpa [htgt] using this
  · intro htgt
    unfold propertyRemoveOp
    have := List.mem_map_of_mem
      (fun m => if m.path ∈ modifyTargets t path sel then delProp m prop else m) hn
    simpa [htgt] using this

/-- C7 at the spec's concrete scenario, `modify = "/chosen:bootargs:"` on a
tree whose `/chosen` carries `bootargs` and `stdout-path`; the trailing
conjuncts instantiate the theorem a second time at `PATH = "/"`, whose
target set is the whole tree (`tree.subnodes(tree["/"])`), so the deletion
reaches `/chosen` there as well. -/
theorem c7_modify_prop_delete_frame_witness :
    (propertyRemoveOp exC7tree "/chosen" "bootargs" []).map LNode.path =
        exC7tree.map LNode.path ∧
    (exC7chosen.path ∈ modifyTargets exC7tree "/chosen" [] →
      delProp exC7chosen "bootargs" ∈ propertyRemoveOp exC7tree "/chosen" "bootargs" [] ∧
      lookupProp (delProp exC7chosen "bootargs") "bootargs" = none ∧
      (delProp exC7chosen "bootargs").path = exC7chosen.path ∧
      (delProp exC7chosen "bootargs").label = exC7chosen.label ∧
      (delProp exC7chosen "bootargs").phandle = exC7chosen.phandle ∧
      ∀ q, q ≠ "bootargs" →
        lookupProp (delProp exC7chosen "bootargs") q = lookupProp exC7chosen q) ∧
    (exC7chosen.path ∉ modifyTargets exC7tree "/chosen" [] →
      exC7chosen ∈ propertyRemoveOp exC7tree "/chosen" "bootargs" []) ∧
    modifyTargets exC7tree "/" [] = ["/", "/chosen", "/etc"] ∧
    delProp exC7chosen "bootargs" ∈ propertyRemoveOp exC7tree "/" "bootargs" [] :=
  ⟨(c7_modify_prop_delete_frame exC7tree "/chosen" "bootargs" [] exC7chosen (by decide)).1,
   (c7_modify_prop_delete_frame exC7tree "/chosen" "bootargs" [] exC7chosen (by decide)).2.1,
   (c7_modify_prop_delete_frame exC7tree "/chosen" "bootargs" [] exC7chosen (by decide)).2.2,
   by decide,
   ((c7_modify_prop_delete_frame exC7tree "/" "bootargs" [] exC7chosen
      (by decide)).2.1 (by decide)).1⟩

/-- C6 (the code at the spec's rename scenario): for
`modify = "/amba/uart@0::/amba/serial0"` the rename branch sets the node's
name to `VAL` with every `/` removed (lopper.py:1847), so the tree ends
with `/amba/ambaserial0` — not `/amba/serial0` — with the properties
carried along.  By contrast, a root-level rename `/uart -> /serial0` (where
stripping the slash of `VAL` yields a plain leaf name) behaves exactly as
the claim says: the occupying node at the destination is deleted first and
the node is renamed with its property contents preserved. -/
theorem c6_rename_failing_input :
    modifyNodeOp exC6tree "/amba/uart@0" "/amba/serial0" [] =
      NodeOpResult.ok
        [⟨"/", "", 0, []⟩, ⟨"/amba", "", 0, []⟩,
         ⟨"/amba/ambaserial0", "", 0, [("compatible", [PV.str "ns16550"])]⟩] ∧
    modifyNodeOp exC6roottree "/uart" "/serial0" [] =
      NodeOpResult.ok
        [⟨"/", "", 0, []⟩, ⟨"/serial0", "", 0, [("k", [PV.num 1])]⟩] := by
  constructor <;> rfl

/-- C8 (the code at the failing input): in `exC8tree` the conditional at
index 2 has the conditional `true_nested` (index 3) and `true_mod`
(index 4) as children; the walk nevertheless executes indices 3 and 4,
because visiting `true_nested` REPLACES the skip list with its own (empty)
descendant set (lopper.py:1979-1983).  In `exC8sane` (no nested
conditional) the claim's behaviour is what happens: the conditional's child
is skipped, the `noexec` lop is skipped, the rest run once in document
order. -/
theorem c8_skip_list_failing_input :
    runqueueWalk exC8tree = [2, 3, 4] ∧
    runqueueWalk exC8sane = [1, 4] := by
  constructor <;> rfl

theorem chainRun_ge (pre m : String) (subs : List CondChild) :
    ∀ i, ∀ j ∈ chainRun pre m i subs, i ≤ j := by
  induction subs with
  | nil => intro i j hj; simp [chainRun] at hj
  | cons n rest ih =>
    intro i j hj
    rw [chainRun] at hj
    by_cases hname : strStartsWith pre n.name = true
    · rw [if_pos hname] at hj
      by_cases hrun : n.run m = false
      · rw [if_pos hrun] at hj
        simp at hj
        omega
      · rw [if_neg hrun] at hj
        rcases List.mem_cons.mp hj with h | h
        · omega
        · have := ih (i + 1) j h
          omega
    · rw [if_neg hname] at hj
      have := ih (i + 1) j hj
      omega

theorem chainRun_pairwise (pre m : String) (subs : List CondChild) :
    ∀ i, List.Pairwise (· < ·) (chainRun pre m i subs) := by
  induction subs with
  | nil => intro i; simp [chainRun]
  | cons n rest ih =>
    intro i
    rw [chainRun]
    by_cases hname : strStartsWith pre n.name = true
    · rw [if_pos hname]
      by_cases hrun : n.run m = false
      · rw [if_pos hrun]; simp
      · rw [if_neg hrun]
        refine List.Pairwise.cons ?_ (ih (i + 1))
        intro j hj
        have := chainRun_ge pre m rest (i + 1) j hj
        omega
    · rw [if_neg hname]; exact ih (i + 1)

theorem chainRun_names (pre m : String) (subs : List CondChild) :
    ∀ i, ∀ j ∈ chainRun pre m i subs,
      ∃ c, subs.get? (j - i) = some c ∧ strStartsWith pre c.name = true := by
  induction subs with
  | nil => intro i j hj; simp [chainRun] at hj
  | cons n rest ih =>
    intro i j hj
    rw [chainRun] at hj
    by_cases hname : strStartsWith pre n.name = true
    · rw [if_pos hname] at hj
      by_cases hrun : n.run m = false
      · rw [if_pos hrun] at hj
        simp at hj
        subst hj
        exact ⟨n, by simp, hname⟩
      · rw [if_neg hrun] at hj
        rcases List.mem_cons.mp hj with h | h
        · subst h
          exact ⟨n, by simp, hname⟩
        · have hge := chainRun_ge pre m rest (i + 1) j h
          rcases ih (i + 1) j h with ⟨c, hc, hcn⟩
          refine ⟨c, ?_, hcn⟩
          have : j - i = (j - (i + 1)) + 1 := by omega
          rw [this, List.get?_cons_succ]
          exact hc
    · rw [if_neg hname] at hj
      have hge := chainRun_ge pre m rest (i + 1) j hj
      rcases ih (i + 1) j hj with ⟨c, hc, hcn⟩
      refine ⟨c, ?_, hcn⟩
      have : j - i = (j - (i + 1)) + 1 := by omega
      rw [this, List.get?_cons_succ]
      exact hc

theorem chainRun_stop (pre m : String) (subs : List CondChild) :
    ∀ i j c, j ∈ chainRun pre m i subs → subs.get? (j - i) = some c →
      c.run m = false → ∀ k ∈ chainRun pre m i subs, k ≤ j := by
  induction subs with
  | nil => intro i j c hj; simp [chainRun] at hj
  | cons n rest ih =>
    intro i j c hj hget hfalse k hk
    rw [chainRun] at hj hk
    by_cases hname : strStartsWith pre n.name = true
    · rw [if_pos hname] at hj hk
      by_cases hrun : n.run m = false
      · rw [if_pos hrun] at hj hk
        simp at hj hk
        omega
      · rw [if_neg hrun] at hj hk
        rcases List.mem_cons.mp hj with h | h
        · subst h
          simp at hget
          subst hget
          exact absurd hfalse hrun
        · have hge := chainRun_ge pre m rest (i + 1) j h
          rcases List.mem_cons.mp hk with h' | h'
          · omega
          · have : j - i = (j - (i + 1)) + 1 := by omega
            rw [this, List.get?_cons_succ] at hget
            exact ih (i + 1) j c h hget hfalse k h'
    · rw [if_neg hname] at hj hk
      have hge := chainRun_ge pre m rest (i + 1) j hj
      have : j - i = (j - (i + 1)) + 1 := by omega
      rw [this, List.get?_cons_succ] at hget
      exact ih (i + 1) j c hj hget hfalse k hk

theorem chainRun_complete (pre m : String) (subs : List CondChild) :
    ∀ i j c, subs.get? j = some c → strStartsWith pre c.name = true →
      (∀ k ck, k < j → subs.get? k = some ck →
        strStartsWith pre ck.name = true → ck.run m ≠ false) →
      (i + j) ∈ chainRun pre m i subs := by
  induction subs with
  | nil => intro i j c hget; simp at hget
  | cons n rest ih =>
    intro i j c hget hname hprev
    match j with
    | 0 =>
      simp at hget
      subst hget
      rw [chainRun, if_pos hname]
      by_cases hrun : n.run m = false
      · rw [if_pos hrun]; simp
      · rw [if_neg hrun]; simp
    | jj + 1 =>
      rw [List.get?_cons_succ] at hget
      have hrec : (i + 1 + jj) ∈ chainRun pre m (i + 1) rest := by
        refine ih (i + 1) jj c hget hname ?_
        intro k ck hk hgetk hnk
        exact hprev (k + 1) ck (by omega) (by rw [List.get?_cons_succ]; exact hgetk) hnk
      rw [chainRun]
      by_cases hn : strStartsWith pre n.name = true
      · rw [if_pos hn]
        have hnrun : n.run m ≠ false := hprev 0 n (by omega) (by simp) hn
        rw [if_neg hnrun]
        have : i + (jj + 1) = i + 1 + jj := by omega
        rw [this]
        exact List.mem_cons_of_mem _ hrec
      · rw [if_neg hn]
        have : i + (jj + 1) = i + 1 + jj := by omega
        rw [this]
        exact hrec

/-- C2: for every conditional lop, the dispatcher runs the `true*` chain
once per true match and the `false*` chain once per false match (each with
`start_node` bound to that match); within a chain the executed children are
exactly the `pre`-named children in document order up to and including the
first one whose run returns false, after which no later `pre`-named child
executes for that match. -/
theorem c2_conditional_chain :
    (∀ (subs : List CondChild) (tm fm : List String),
      condDispatch subs tm fm =
        (tm.map (fun m => (m, chainRun "true" m 0 subs)),
         fm.map (fun m => (m, chainRun "false" m 0 subs)))) ∧
    (∀ (pre m : String) (subs : List CondChild),
      List.Pairwise (· < ·) (chainRun pre m 0 subs) ∧
      (∀ j ∈ chainRun pre m 0 subs,
        ∃ c, subs.get? j = some c ∧ strStartsWith pre c.name = true) ∧
      (∀ j c, j ∈ chainRun pre m 0 subs → subs.get? j = some c →
        c.run m = false → ∀ k ∈ chainRun pre m 0 subs, k ≤ j) ∧
      (∀ j c, subs.get? j = some c → strStartsWith pre c.name = true →
        (∀ k ck, k < j → subs.get? k = some ck →
          strStartsWith pre ck.name = true → ck.run m ≠ false) →
        j ∈ chainRun pre m 0 subs)) := by
  refine ⟨fun _ _ _ => rfl, fun pre m subs => ⟨chainRun_pairwise pre m subs 0, ?_, ?_, ?_⟩⟩
  · intro j hj
    have := chainRun_names pre m subs 0 j hj
    simpa using this
  · intro j c hj hget hfalse k hk
    exact chainRun_stop pre m subs 0 j c hj (by simpa using hget) hfalse k hk
  · intro j c hget hname hprev
    have := chainRun_complete pre m subs 0 j c hget hname hprev
    simpa using this

theorem fcaStep_no_module (mask : String) (st : FCAState) (b : AssistM)
    (hb : b.module = false) : fcaStep mask st b = .ok st := by
  simp [fcaStep, hb]

theorem fcaRun_skip (mask : String) (st : FCAState) (pre l : List AssistM)
    (h : ∀ b ∈ pre, b.module = false) :
    fcaRun mask st (pre ++ l) = fcaRun mask st l := by
  induction pre with
  | nil => rfl
  | cons b bs ih =>
    have hb : b.module = false := h b (by simp)
    have hrest : ∀ x ∈ bs, x.module = false :=
      fun x hx => h x (List.mem_cons_of_mem _ hx)
    simp only [List.cons_append]
    rw [fcaRun, fcaStep_no_module mask st b hb]
    exact ih hrest

/-- C10: `find_compatible_assist` is not total.  When the first registered
assist with a loaded module declares a nonempty mask different from the
nonempty mask argument, the local `cb_f` is read before any assignment
(lopper.py:728) and the call raises NameError; and whenever the mask check
rejects a later assist while `cb_f` holds a callable from an earlier
iteration, that callable is appended again in its place.  Grounded on two
concrete runs: a single mismatching assist raises, and a matching assist
followed by a mismatching one yields the first callable twice. -/
theorem c10_find_compatible_assist_partiality :
    (∀ (pre rest : List AssistM) (a : AssistM) (cb_id mask : String),
      (∀ b ∈ pre, b.module = false) → a.module = true → mask ≠ "" →
      assistProp a "mask" ≠ "" → assistProp a "mask" ≠ mask →
      find_compatible_assist (pre ++ a :: rest) cb_id mask = .nameError) ∧
    (∀ (mask : String) (st : FCAState) (a : AssistM) (c : Nat),
      a.module = true → mask ≠ "" → assistProp a "mask" ≠ "" →
      assistProp a "mask" ≠ mask → st.cb_f = some (some c) →
      fcaStep mask st a =
        .ok ⟨if st.cb_id = "" then assistProp a "id" else st.cb_id,
             some (some c), st.acc ++ [c]⟩) ∧
    find_compatible_assist [exAssistXyz] "" ".cdo" = .nameError ∧
    find_compatible_assist [exAssistCdo1, exAssistXyz] "" ".cdo" = .ok [1, 1] := by
  refine ⟨?_, ?_, rfl, rfl⟩
  · intro pre rest a cb_id mask hpre hmod hmask hamask hne
    unfold find_compatible_assist
    rw [if_neg (by simp)]
    rw [fcaRun_skip mask _ pre _ hpre]
    have hstep : fcaStep mask ⟨cb_id, none, []⟩ a = .nameError := by
      simp [fcaStep, hmod, hmask, hamask, Ne.symm hne]
    rw [fcaRun, hstep]
  · intro mask st a c hmod hmask hamask hne hcbf
    simp [fcaStep, hmod, hmask, hamask, Ne.symm hne, hcbf]

/-- C9 (the code at concrete inputs): with two assists both registered for
mask `.cdo`, writing `out.cdo` invokes BOTH collected callables, not only
the first; and a file named `my.dtsy.cdo` — extension `.cdo`, none of
`.dtb`/`.dts`/`.yaml` — is routed to the `.dts` writer because the guards
test `re.search` over the whole name (lopper.py:441-462), so the assist
dispatch is never queried for it. -/
theorem c9_output_assist_counterexample :
    writeDispatch [exAssistCdo1, exAssistCdo2] 0 "out.cdo" =
      .assistOut [(1, "out.cdo", 0), (2, "out.cdo", 0)] ∧
    writeDispatch [] 0 "my.dtsy.cdo" = .dtsOut := by
  constructor <;> rfl

/-- C9 amended: for every write of an output file whose name does not match
the `.dtb`, `.dts` or `.yaml` search patterns, the assist dispatch
mechanism is queried with the file extension as mask and EVERY collected
assist callable is invoked, in collection order, each receiving the output
filename and the verbosity in its options.  Grounded on `out.cdo` with one
registered `.cdo` assist. -/
theorem c9_output_assist_dispatch :
    (∀ (assists : List AssistM) (verbose : Nat) (fname : String)
       (cbs : List Nat),
      reSearchDotLit "dtb" fname = false → reSearchDotLit "dts" fname = false →
      reSearchDotLit "yaml" fname = false →
      find_compatible_assist assists "" (splitextExt fname) = .ok cbs →
      cbs ≠ [] →
      writeDispatch assists verbose fname =
        .assistOut (cbs.map (fun c => (c, fname, verbose)))) ∧
    splitextExt "out.cdo" = ".cdo" ∧
    writeDispatch [exAssistCdo1] 0 "out.cdo" = .assistOut [(1, "out.cdo", 0)] := by
  refine ⟨?_, rfl, rfl⟩
  intro assists verbose fname cbs h1 h2 h3 hfind hne
  cases cbs with
  | nil => exact absurd rfl hne
  | cons c cs => simp [writeDispatch, h1, h2, h3, hfind]

theorem selPropValLoop_append_filter (prop : String) (testv : List PV)
    (invert andMode : Bool) :
    ∀ (l acc : List LNode), l.Nodup → (∀ x ∈ l, x ∉ acc) →
      selPropValLoop prop testv invert andMode acc l =
        acc ++ l.filter (fun sl =>
          match lookupProp sl prop with
          | some v => if invert then !(propCompare testv v) else propCompare testv v
          | none => false) := by
  intro l
  induction l with
  | nil => intro acc _ _; simp [selPropValLoop]
  | cons x rest ih =>
    intro acc hnd hdisj
    have hx : x ∉ acc := hdisj x (by simp)
    have hndr : rest.Nodup := (List.nodup_cons.mp hnd).2
    have hxr : x ∉ rest := (List.nodup_cons.mp hnd).1
    rw [selPropValLoop]
    cases hlp : lookupProp x prop with
    | some v =>
      by_cases heq : (if invert then !(propCompare testv v) else propCompare testv v) = true
      · have hstep : ∀ y ∈ rest, y ∉ acc ++ [x] := by
          intro y hy
          simp only [List.mem_append, List.mem_singleton]
          rintro (h | h)
          · exact hdisj y (List.mem_cons_of_mem _ hy) h
          · exact hxr (h ▸ hy)
        simp only [hlp, heq, if_true, if_neg hx]
        rw [ih (acc ++ [x]) hndr hstep, List.filter_cons_of_pos (by simp [hlp, heq]),
          List.append_assoc]
        rfl
      · have heqf : (if invert then !(propCompare testv v) else propCompare testv v) = false := by
          revert heq
          cases (if invert then !(propCompare testv v) else propCompare testv v) <;> simp
        have hacc : (if andMode then acc.erase x else acc) = acc := by
          cases andMode <;> simp [List.erase_of_not_mem hx]
        simp only [hlp, heqf, Bool.false_eq_true, if_false, hacc]
        rw [ih acc hndr (fun y hy => hdisj y (List.mem_cons_of_mem _ hy)),
          List.filter_cons_of_neg (by simp [hlp, heqf])]
    | none =>
      have hacc : (if andMode then acc.erase x else acc) = acc := by
        cases andMode <;> simp [List.erase_of_not_mem hx]
      simp only [hlp, hacc]
      rw [ih acc hndr (fun y hy => hdisj y (List.mem_cons_of_mem _ hy)),
        List.filter_cons_of_neg (by simp [hlp])]

theorem selectStep_regex_propval (tree : LTree) (treeSel : List LNode)
    (s regex prop prop_val : String)
    (hparse : parseSelect s = (regex, prop, prop_val))
    (hregex : regex ≠ "") (hprop : prop ≠ "") (hval : prop_val ≠ "") :
    selectStep tree treeSel ([], []) s =
      (selPropValLoop prop
        (property_convert (if strStartsWith "!" prop_val then strDropOne prop_val else prop_val))
        (strHasChar '!' prop_val) false [] (treeNodes tree regex),
       treeNodes tree regex) := by
  unfold selectStep
  rw [hparse]
  simp [hregex, hprop, hval]

theorem selectStep_and_propval (tree : LTree) (treeSel : List LNode)
    (s prop prop_val : String)
    (hparse : parseSelect s = ("", prop, prop_val))
    (hprop : prop ≠ "") (hval : prop_val ≠ "") :
    selectStep tree treeSel ([], []) s =
      (selPropValLoop prop
        (property_convert (if strStartsWith "!" prop_val then strDropOne prop_val else prop_val))
        (strHasChar '!' prop_val) true [] treeSel,
       treeSel) := by
  unfold selectStep
  rw [hparse]
  simp [hprop, hval]

theorem parseSelect_empty : parseSelect "" = ("", "", "") := by rfl

theorem treeNodes_nodup (tree : LTree) (regex : String) (h : tree.Nodup) :
    (treeNodes tree regex).Nodup := by
  unfold treeNodes
  exact List.Nodup.filter _ h

theorem selectExec_single (tree : LTree) (prev : List LNode)
    (s regex prop prop_val : String)
    (hparse : parseSelect s = (regex, prop, prop_val))
    (hregex : regex ≠ "") (hprop : prop ≠ "") (hval : prop_val ≠ "")
    (hnd : tree.Nodup) :
    selectExec tree prev [[s]] =
      (treeNodes tree regex).filter (fun sl =>
        match lookupProp sl prop with
        | some v =>
          if strHasChar '!' prop_val then
            !(propCompare (property_convert
                (if strStartsWith "!" prop_val then strDropOne prop_val
                 else prop_val)) v)
          else
            propCompare (property_convert
                (if strStartsWith "!" prop_val then strDropOne prop_val
                 else prop_val)) v
        | none => false) := by
  have hs : s ≠ "" := by
    intro h
    rw [h, parseSelect_empty] at hparse
    injection hparse with h1 h2
    injection h2 with h3 h4
    exact hprop h3.symm
  unfold selectExec
  simp only [List.foldl_cons, List.foldl_nil]
  rw [if_neg (by simp [hs])]
  simp only [List.foldl_cons, List.foldl_nil]
  rw [selectStep_regex_propval tree prev s regex prop prop_val hparse hregex hprop hval]
  dsimp only
  rw [selPropValLoop_append_filter prop _ _ false (treeNodes tree regex) []
    (treeNodes_nodup tree regex hnd) (fun x _ => List.not_mem_nil x)]
  simp

theorem selectExec_and_single (tree : LTree) (prev : List LNode)
    (s prop prop_val : String)
    (hparse : parseSelect s = ("", prop, prop_val))
    (hprop : prop ≠ "") (hval : prop_val ≠ "")
    (hnd : prev.Nodup) :
    selectExec tree prev [[s]] =
      prev.filter (fun sl =>
        match lookupProp sl prop with
        | some v =>
          if strHasChar '!' prop_val then
            !(propCompare (property_convert
                (if strStartsWith "!" prop_val then strDropOne prop_val
                 else prop_val)) v)
          else
            propCompare (property_convert
                (if strStartsWith "!" prop_val then strDropOne prop_val
                 else prop_val)) v
        | none => false) := by
  have hs : s ≠ "" := by
    intro h
    rw [h, parseSelect_empty] at hparse
    injection hparse with h1 h2
    injection h2 with h3 h4
    exact hprop h3.symm
  unfold selectExec
  simp only [List.foldl_cons, List.foldl_nil]
  rw [if_neg (by simp [hs])]
  simp only [List.foldl_cons, List.foldl_nil]
  rw [selectStep_and_propval tree prev s prop prop_val hparse hprop hval]
  dsimp only
  rw [selPropValLoop_append_filter prop _ _ true prev []
    hnd (fun x _ => List.not_mem_nil x)]
  simp

theorem strStartsWith_bang_eq_false (v : String) (h : strHasChar '!' v = false) :
    strStartsWith "!" v = false := by
  unfold strHasChar at h
  unfold strStartsWith
  cases hd : v.data with
  | nil => simp [hd, List.isPrefixOf]
  | cons c t =>
    rw [hd] at h
    simp only [List.contains_cons, Bool.or_eq_false_iff] at h
    simp [hd, List.isPrefixOf, h.1]

theorem strHasChar_of_startsWith_bang (v : String) (h : strStartsWith "!" v = true) :
    strHasChar '!' v = true := by
  unfold strStartsWith at h
  unfold strHasChar
  cases hd : v.data with
  | nil => rw [hd] at h; simp [List.isPrefixOf] at h
  | cons c t =>
    rw [hd] at h
    simp only [List.isPrefixOf, Bool.and_eq_true] at h
    simp [List.contains_cons]
    exact Or.inl (beq_iff_eq.mp h.1)

/-- C5 (the code at a concrete input): for the predicate `baz:a!b` — whose
PROPVAL does NOT begin with `!` — the code still inverts the comparison
(lopper.py:896 tests `re.search("!", prop_val)`, anywhere), so the node
`/a/x`, whose `baz` equals `"a!b"` under the non-inverted test, is NOT
selected; the claim says a PROPVAL not beginning with `!` uses the
non-inverted equality, which would select it. -/
theorem c5_select_inversion_counterexample :
    selectExec exC5tree [] [["/a/.*:baz:a!b"]] = [] ∧
    propCompare (property_convert "a!b") [PV.str "a!b"] = true ∧
    lookupProp (⟨"/a/x", "", 0, [("baz", [PV.str "a!b"])]⟩ : LNode) "baz" =
      some [PV.str "a!b"] := by
  refine ⟨rfl, rfl, rfl⟩

/-- C5 amended: the equality test of a `PROPNAME:PROPVAL` select predicate
is inverted exactly when PROPVAL contains `!` ANYWHERE, and only a leading
`!` is stripped before comparison.  So: no `!` → plain equality; leading
`!` → inverted test against the value without its first character; a `!`
in any other position → inverted test against the unstripped value.
Grounded on `bar:!3` selecting the node whose `bar` is 2. -/
theorem c5_select_propval_inversion :
    (∀ (tree : LTree) (prev : List LNode) (s regex prop prop_val : String),
      parseSelect s = (regex, prop, prop_val) → regex ≠ "" → prop ≠ "" →
      prop_val ≠ "" → tree.Nodup → strHasChar '!' prop_val = false →
      selectExec tree prev [[s]] =
        (treeNodes tree regex).filter (fun sl =>
          match lookupProp sl prop with
          | some v => propCompare (property_convert prop_val) v
          | none => false)) ∧
    (∀ (tree : LTree) (prev : List LNode) (s regex prop prop_val : String),
      parseSelect s = (regex, prop, prop_val) → regex ≠ "" → prop ≠ "" →
      prop_val ≠ "" → tree.Nodup → strStartsWith "!" prop_val = true →
      selectExec tree prev [[s]] =
        (treeNodes tree regex).filter (fun sl =>
          match lookupProp sl prop with
          | some v =>
            !(propCompare (property_convert (strDropOne prop_val)) v)
          | none => false)) ∧
    (∀ (tree : LTree) (prev : List LNode) (s regex prop prop_val : String),
      parseSelect s = (regex, prop, prop_val) → regex ≠ "" → prop ≠ "" →
      prop_val ≠ "" → tree.Nodup → strHasChar '!' prop_val = true →
      strStartsWith "!" prop_val = false →
      selectExec tree prev [[s]] =
        (treeNodes tree regex).filter (fun sl =>
          match lookupProp sl prop with
          | some v => !(propCompare (property_convert prop_val) v)
          | none => false)) ∧
    (selectExec exC4tree3 [] [["/a/.*:bar:!3"]]).map LNode.path = ["/a/x"] := by
  refine ⟨?_, ?_, ?_, rfl⟩
  · intro tree prev s regex prop prop_val hparse hregex hprop hval hnd hchar
    rw [selectExec_single tree prev s regex prop prop_val hparse hregex hprop hval hnd]
    have hstart := strStartsWith_bang_eq_false prop_val hchar
    simp only [hchar, hstart, Bool.false_eq_true, if_false]
  · intro tree prev s regex prop prop_val hparse hregex hprop hval hnd hstart
    rw [selectExec_single tree prev s regex prop prop_val hparse hregex hprop hval hnd]
    have hchar := strHasChar_of_startsWith_bang prop_val hstart
    simp only [hchar, hstart, if_true]
  · intro tree prev s regex prop prop_val hparse hregex hprop hval hnd hchar hstart
    rw [selectExec_single tree prev s regex prop prop_val hparse hregex hprop hval hnd]
    simp only [hchar, hstart, Bool.false_eq_true, if_false, if_true]

/-- C4 (the code at a concrete input): with
`select_1 = "/a/.*:foo:1"; select_2 = "/b/.*:bar:2"` on a tree where `/a/x`
and `/b/y` both carry `bar = 2` and neither carries `foo`, the second
predicate is applied to the WHOLE accumulated candidate pool
(lopper.py:877-878 appends to `selected_nodes_possible`; 911 iterates it),
so `/a/x` is selected by the `bar:2` predicate even though it only matched
the first selector's PATH_REGEX.  The claim's formula — each nonempty
PATH_REGEX's matches filtered by its own predicate, united — yields
`{/b/y}` (computed here by `selectSpecSelection`, written from the claim's
words). -/
theorem c4_select_union_counterexample :
    (selectExec exC4tree3 [] [["/a/.*:foo:1"], ["/b/.*:bar:2"]]).map LNode.path =
      ["/a/x", "/b/y"] ∧
    (selectSpecSelection exC4tree3 [["/a/.*:foo:1"], ["/b/.*:bar:2"]]).map LNode.path =
      ["/b/y"] := by
  refine ⟨rfl, rfl⟩

/-- C4 amended: a select predicate attached to a nonempty PATH_REGEX adds
to the selection the nodes of the accumulated candidate pool — which also
holds the candidates of earlier `select_N` values of the same lop — that
satisfy it; it never removes nodes.  For a lop whose only selector is
`REGEX:PROP:VAL`, the selection is exactly the regex's matches filtered by
the predicate; a `select_N` with empty PATH_REGEX applies its predicate as
an AND filter over the previously selected nodes.  The spec's two concrete
scenarios hold as stated. -/
theorem c4_select_union_and_filter :
    (selectExec exC4tree1 [] [["/a/.*:foo:1"]]).map LNode.path = ["/a/b"] ∧
    (selectExec exC4tree2 [] [["/a/.*"], ["/b/.*"]]).map LNode.path =
      ["/a/x", "/b/y"] ∧
    (∀ (tree : LTree) (prev : List LNode) (s regex prop prop_val : String),
      parseSelect s = (regex, prop, prop_val) → regex ≠ "" → prop ≠ "" →
      prop_val ≠ "" → strHasChar '!' prop_val = false → tree.Nodup →
      selectExec tree prev [[s]] =
        (treeNodes tree regex).filter (fun sl =>
          match lookupProp sl prop with
          | some v => propCompare (property_convert prop_val) v
          | none => false)) ∧
    (∀ (tree : LTree) (prev : List LNode) (s prop prop_val : String),
      parseSelect s = ("", prop, prop_val) → prop ≠ "" → prop_val ≠ "" →
      strHasChar '!' prop_val = false → prev.Nodup →
      selectExec tree prev [[s]] =
        prev.filter (fun sl =>
          match lookupProp sl prop with
          | some v => propCompare (property_convert prop_val) v
          | none => false)) := by
  refine ⟨rfl, rfl, ?_, ?_⟩
  · intro tree prev s regex prop prop_val hparse hregex hprop hval hchar hnd
    rw [selectExec_single tree prev s regex prop prop_val hparse hregex hprop hval hnd]
    have hstart := strStartsWith_bang_eq_false prop_val hchar
    simp only [hchar, hstart, Bool.false_eq_true, if_false]
  · intro tree prev s prop prop_val hparse hprop hval hchar hnd
    rw [selectExec_and_single tree prev s prop prop_val hparse hprop hval hnd]
    have hstart := strStartsWith_bang_eq_false prop_val hchar
    simp only [hchar, hstart, Bool.false_eq_true, if_false]

theorem runqueueWalkAux_sorted (tree : List WalkNode) :
    ∀ (l : List WalkNode) (i : Nat) (skip : List String),
      (∀ j ∈ runqueueWalkAux tree l i skip, i ≤ j) ∧
      (runqueueWalkAux tree l i skip).Pairwise (· < ·) := by
  intro l
  induction l with
  | nil => intro i skip; simp [runqueueWalkAux]
  | cons f rest ih =>
    intro i skip
    rw [runqueueWalkAux]
    by_cases hlop : isLopNode f = true
    · simp only [hlop, Bool.not_true, Bool.false_eq_true, if_false]
      by_cases hskip : (f.noexec ||
          (if isCondNode f then walkDescendants tree f.path else skip).contains f.path) = true
      · rw [if_pos hskip]
        have h := ih (i + 1) (if isCondNode f then walkDescendants tree f.path else skip)
        exact ⟨fun j hj => le_trans (Nat.le_succ i) (h.1 j hj), h.2⟩
      · rw [if_neg hskip]
        have h := ih (i + 1) (if isCondNode f then walkDescendants tree f.path else skip)
        refine ⟨?_, ?_⟩
        · intro j hj
          rcases List.mem_cons.mp hj with heq | hj'
          · exact le_of_eq heq.symm
          · exact le_trans (Nat.le_succ i) (h.1 j hj')
        · exact List.Pairwise.cons
            (fun j hj => lt_of_lt_of_le (Nat.lt_succ_self i) (h.1 j hj)) h.2
    · have hlop' : (!(isLopNode f)) = true := by simp [hlop]
      rw [if_pos hlop']
      have h := ih (i + 1) skip
      exact ⟨fun j hj => le_trans (Nat.le_succ i) (h.1 j hj), h.2⟩

theorem lopsRunqueue_pairwise (files : List LopFileM) :
    (lopsRunqueue files).Pairwise (fun i j =>
      lopFilePriority (files.getD i {}) ≤ lopFilePriority (files.getD j {}) ∧
      i ≠ j) := by
  unfold lopsRunqueue
  rw [List.flatMap_def, List.pairwise_flatten]
  constructor
  · intro l' hl'
    rcases List.mem_map.mp hl' with ⟨p, hp, rfl⟩
    have h1 : ((List.range files.length).filter
        (fun i => lopFilePriority (files.getD i {}) = (p : Int))).Pairwise (· < ·) :=
      (List.pairwise_lt_range _).filter _
    refine h1.imp_of_mem ?_
    intro a b ha hb hab
    have hap : lopFilePriority (files.getD a {}) = (p : Int) := by
      have := (List.mem_filter.mp ha).2
      simpa using this
    have hbp : lopFilePriority (files.getD b {}) = (p : Int) := by
      have := (List.mem_filter.mp hb).2
      simpa using this
    exact ⟨by rw [hap, hbp], Nat.ne_of_lt hab⟩
  · rw [List.pairwise_map]
    have hpq : (List.range' 1 9).Pairwise (· < ·) := by decide
    refine hpq.imp_of_mem ?_
    intro p q hp hq hlt x hx y hy
    have hxp : lopFilePriority (files.getD x {}) = (p : Int) := by
      have := (List.mem_filter.mp hx).2
      simpa using this
    have hyq : lopFilePriority (files.getD y {}) = (q : Int) := by
      have := (List.mem_filter.mp hy).2
      simpa using this
    refine ⟨by rw [hxp, hyq]; exact_mod_cast le_of_lt hlt, ?_⟩
    intro hxy
    rw [hxy, hyq] at hxp
    have : q = p := by exact_mod_cast hxp
    omega

/-- C1: every lop file (with a priority in 1..9) lands in the runqueue, and
along the full execution sequence — pairs (file index, document index of
the lop inside its file) — file priorities are non-decreasing, so all lops
of a priority-1 file run before every lop of any higher-priority file;
within each single file the lops execute in document order.  Files of equal
priority run in registration order, which is one of the two orders the
claim allows. -/
theorem c1_priority_order (files : List LopFileM)
    (hpr : ∀ f ∈ files, 1 ≤ lopFilePriority f ∧ lopFilePriority f ≤ 9) :
    (∀ i, i < files.length → i ∈ lopsRunqueue files) ∧
    (perform_lops files).Pairwise (fun a b =>
      lopFilePriority (files.getD a.1 {}) ≤ lopFilePriority (files.getD b.1 {}) ∧
      (a.1 = b.1 → a.2 < b.2)) := by
  constructor
  · intro i hi
    have hmem : files.getD i {} ∈ files := by
      rw [List.getD_eq_getElem files {} hi]
      exact List.getElem_mem hi
    have hb := hpr _ hmem
    unfold lopsRunqueue
    rw [List.mem_flatMap]
    refine ⟨(lopFilePriority (files.getD i {})).toNat, ?_, ?_⟩
    · have h1 : 1 ≤ (lopFilePriority (files.getD i {})).toNat := by omega
      have h2 : (lopFilePriority (files.getD i {})).toNat ≤ 9 := by omega
      have : (List.range' 1 9) = [1, 2, 3, 4, 5, 6, 7, 8, 9] := by decide
      rw [this]
      interval_cases h : (lopFilePriority (files.getD i {})).toNat <;> simp_all
    · rw [List.mem_filter]
      refine ⟨List.mem_range.mpr hi, ?_⟩
      simp only [decide_eq_true_eq]
      omega
  · unfold perform_lops
    rw [List.flatMap_def, List.pairwise_flatten]
    constructor
    · intro l' hl'
      rcases List.mem_map.mp hl' with ⟨i, hi, rfl⟩
      rw [List.pairwise_map]
      refine ((runqueueWalkAux_sorted (files.getD i {}).tree
        (files.getD i {}).tree 0 []).2).imp ?_
      intro k1 k2 hk
      exact ⟨le_refl _, fun _ => hk⟩
    · rw [List.pairwise_map]
      refine (lopsRunqueue_pairwise files).imp ?_
      intro i j hij x hx y hy
      rcases List.mem_map.mp hx with ⟨k1, _, rfl⟩
      rcases List.mem_map.mp hy with ⟨k2, _, rfl⟩
      exact ⟨hij.1, fun h => absurd h hij.2⟩

/-- C1 at the spec's priority scenario: file 0 with priority 3, file 1 with
priority 1 (two lops). -/
theorem c1_priority_order_witness :
    (∀ i, i < exC1files.length → i ∈ lopsRunqueue exC1files) ∧
    (perform_lops exC1files).Pairwise (fun a b =>
      lopFilePriority (exC1files.getD a.1 {}) ≤
        lopFilePriority (exC1files.getD b.1 {}) ∧
      (a.1 = b.1 → a.2 < b.2)) :=
  c1_priority_order exC1files (by decide)

/-- C3 (the code at a concrete input): in `exC3btree` the name `cpu0` is
the label of `/a` (phandle 7) but also matches the PATH of `/b/cpu0`
(phandle 9) under `tree.nodes` (the regex gets an implicit `.*`), and the
code resolves by path regex FIRST (lopper.py:1763), so
`modify = "/chosen:cpu:&cpu0"` stores 9 — not the 7 that resolving `cpu0`
"as a label in the main tree" would give. -/
theorem c3_phandle_label_counterexample :
    getProp (modifyAssignOp exC3btree [] "/chosen" "cpu" "&cpu0" []) "/chosen" "cpu" =
      some [PV.num 9] ∧
    treeLnodes exC3btree "cpu0" = [⟨"/a", "cpu0", 7, []⟩] ∧
    (⟨"/a", "cpu0", 7, []⟩ : LNode).phandle = 7 := by
  refine ⟨rfl, rfl, rfl⟩

/-- C3 amended: a `modify` VAL containing `&` is resolved (after dropping
every `&` and splitting off an optional `#FIELD`) FIRST as a path regex
over the main tree, then as a main-tree label, then as a path regex and
label over the lop tree; with `#FIELD` the referenced node's property FIELD
value is substituted (the node's phandle when it lacks FIELD), otherwise
the node's phandle; 0 when nothing resolves.  The spec's concrete scenario
(`cpu0` labelling a node at a path that does not itself match `cpu0`)
stores [7] as claimed. -/
theorem c3_phandle_substitution :
    getProp (modifyAssignOp exC3tree [] "/chosen" "cpu" "&cpu0" []) "/chosen" "cpu" =
      some [PV.num 7] ∧
    (∀ (tree lops : LTree) (val node name : String) (n : LNode) (rest : List LNode),
      strHasChar '&' val = true → strSplit '#' val = [node] →
      strRemoveChar '&' node = name → treeNodes tree name = n :: rest →
      resolveModifyVal tree lops val = [PV.num (n.phandle : Int)]) ∧
    (∀ (tree lops : LTree) (val node name : String) (n : LNode) (rest : List LNode),
      strHasChar '&' val = true → strSplit '#' val = [node] →
      strRemoveChar '&' node = name → treeNodes tree name = [] →
      treeLnodes tree name = n :: rest →
      resolveModifyVal tree lops val = [PV.num (n.phandle : Int)]) ∧
    (∀ (tree lops : LTree) (val node field name : String) (n : LNode)
       (rest : List LNode),
      strHasChar '&' val = true → strSplit '#' val = [node, field] →
      strRemoveChar '&' node = name →
      phandleCandidates tree lops name = n :: rest →
      ((∀ v, lookupProp n field = some v → resolveModifyVal tree lops val = v) ∧
       (lookupProp n field = none →
         resolveModifyVal tree lops val = [PV.num (n.phandle : Int)]))) ∧
    (∀ (tree lops : LTree) (val node name : String),
      strHasChar '&' val = true → strSplit '#' val = [node] →
      strRemoveChar '&' node = name → phandleCandidates tree lops name = [] →
      resolveModifyVal tree lops val = [PV.num 0]) := by
  refine ⟨rfl, ?_, ?_, ?_, ?_⟩
  · intro tree lops val node name n rest hchar hsplit hremove hnodes
    simp [resolveModifyVal, hchar, hsplit, hremove, phandleCandidates, hnodes]
  · intro tree lops val node name n rest hchar hsplit hremove hnodes hlnodes
    simp [resolveModifyVal, hchar, hsplit, hremove, phandleCandidates, hnodes, hlnodes]
  · intro tree lops val node field name n rest hchar hsplit hremove hcand
    constructor
    · intro v hv
      simp [resolveModifyVal, hchar, hsplit, hremove, hcand, hv]
    · intro hv
      simp [resolveModifyVal, hchar, hsplit, hremove, hcand, hv]
  · intro tree lops val node name hchar hsplit hremove hcand
    simp [resolveModifyVal, hchar, hsplit, hremove, hcand]

end Lop
